import Mathlib

/-
Shallow embedding of the DocTags parse-and-extract pipeline of `src/app.py`
(functions `parse_doctags`, `extract_financial_metrics`, and the export
formatters inside `export_financial_data`, plus the hardcoded fixture XML
returned by `SmolDoclingClient.process_document_page`).

Modelling conventions:
* Python floats are modelled as exact rationals (`ℚ`).  Every coordinate
  appearing in the fixtures and claims is a small integer, where rational and
  IEEE-754 semantics agree exactly.
* Rational arithmetic is performed through `mkRat`-based helpers (`ratAdd`,
  `ratMulNat`) because the library `Rat.add`/`Rat.mul` are `@[irreducible]`;
  the bridge lemmas `ratAdd_eq` and `ratMulNat_eq` relate them to `+` and `*`.
* String operations (`strip`, `lower`, `split`, substring test) are
  implemented over `List Char`, matching Python semantics on the ASCII inputs
  the program handles.
* `BeautifulSoup(doctags_xml, 'xml')` turns the markup string into an element
  tree; that third-party parsing step is outside the embedding.  The embedding
  takes the resulting tree (`Soup`: the `otsl` elements found by
  `find_all('otsl')` and the `text` elements found by `find_all('text')`, in
  document order, each with its `bbox` attribute string) as input, and models
  everything `parse_doctags` itself does with that tree.
* A pandas `DataFrame` built as `pd.DataFrame(table_data, columns=headers)` is
  modelled by its column list and row list (`TableBlock`).  Column access
  `row[df.columns[k]]` is modelled positionally, which agrees with pandas
  whenever the column names are unique (the spec's stated `TableBlock`
  invariant); the same applies to `to_dict(orient="records")` and `pd.concat`
  column alignment.
-/

/-- Ordered key-value list standing for a Python `dict` (insertion order,
each key at most once). -/
abbrev Dict := List (String × String)

set_option maxRecDepth 100000

deriving instance DecidableEq for Except

/-- Rational addition computed via `mkRat`; equals `a + b` (`ratAdd_eq`). -/
def ratAdd (a b : ℚ) : ℚ := mkRat (a.num * (b.den : ℤ) + b.num * (a.den : ℤ)) (a.den * b.den)

/-- Multiplication of a rational by a natural number computed via `mkRat`;
equals `(i : ℚ) * b` (`ratMulNat_eq`). -/
def ratMulNat (i : ℕ) (b : ℚ) : ℚ := mkRat ((i : ℤ) * b.num) b.den

/-- Python `str.strip()` on the character list: drop leading and trailing
whitespace. -/
def pyStripChars (cs : List Char) : List Char :=
  ((cs.dropWhile Char.isWhitespace).reverse.dropWhile Char.isWhitespace).reverse

/-- Python `str.strip()`. -/
def pyStrip (s : String) : String := ⟨pyStripChars s.toList⟩

/-- Python `str.lower()` (ASCII case folding, as in all program inputs). -/
def pyLower (s : String) : String := ⟨s.toList.map Char.toLower⟩

/-- Helper for `pySplitWs`: accumulate the current token (reversed) while
scanning. -/
def pySplitWsAux : List Char → List Char → List String
  | acc, [] => if acc.isEmpty then [] else [⟨acc.reverse⟩]
  | acc, c :: rest =>
    if c.isWhitespace then
      if acc.isEmpty then pySplitWsAux [] rest
      else ⟨acc.reverse⟩ :: pySplitWsAux [] rest
    else pySplitWsAux (c :: acc) rest

/-- Python `str.split()` with no argument: split on runs of whitespace,
discarding empty tokens. -/
def pySplitWs (s : String) : List String := pySplitWsAux [] s.toList

/-- Python `needle in hay` substring test on character lists. -/
def containsSub (needle : List Char) : List Char → Bool
  | [] => needle.isEmpty
  | c :: rest => needle.isPrefixOf (c :: rest) || containsSub needle rest

/-- Numeric value of a list of decimal digit characters. -/
def digitsVal (cs : List Char) : ℕ := cs.foldl (fun n c => 10 * n + (c.toNat - 48)) 0

/-- Exact rational value of the decimal literal
`sgn * ip.fp * 10^e` (integer part `ip`, fraction digits `fp`). -/
def sciToRat (sgn : ℤ) (ip fp : List Char) (e : ℤ) : ℚ :=
  let mabs : ℕ := digitsVal ip * 10 ^ fp.length + digitsVal fp
  if 0 ≤ e then mkRat (sgn * ((mabs * 10 ^ e.toNat : ℕ) : ℤ)) (10 ^ fp.length)
  else mkRat (sgn * (mabs : ℤ)) (10 ^ (fp.length + (-e).toNat))

/-- Exponent suffix of a float literal: optional sign then at least one
digit, consuming the whole remainder. -/
def expSuffix? (rest : List Char) : Option ℤ :=
  let se : ℤ × List Char :=
    match rest with
    | '-' :: r => (-1, r)
    | '+' :: r => (1, r)
    | _ => (1, rest)
  let ds := se.2.takeWhile Char.isDigit
  let rem := se.2.dropWhile Char.isDigit
  if ds.isEmpty || !rem.isEmpty then none
  else some (se.1 * (digitsVal ds : ℤ))

/-- Python `float(token)` on finite decimal and scientific literals:
optional sign, digits with an optional fractional part (at least one digit
overall), optional exponent.  Returns `none` exactly when Python raises
`ValueError` (special forms such as `inf`, `nan` or underscore separators are
not produced by this program's inputs and are treated as non-numeric). -/
def pyFloat? (s : String) : Option ℚ :=
  let cs := s.toList
  let sgnRest : ℤ × List Char :=
    match cs with
    | '-' :: rest => (-1, rest)
    | '+' :: rest => (1, rest)
    | _ => (1, cs)
  let ip := sgnRest.2.takeWhile Char.isDigit
  let cs2 := sgnRest.2.dropWhile Char.isDigit
  let fpRest : List Char × List Char :=
    match cs2 with
    | '.' :: rest => (rest.takeWhile Char.isDigit, rest.dropWhile Char.isDigit)
    | _ => ([], cs2)
  if ip.isEmpty && fpRest.1.isEmpty then none
  else
    match fpRest.2 with
    | [] => some (sciToRat sgnRest.1 ip fpRest.1 0)
    | 'e' :: rest => (expSuffix? rest).map (sciToRat sgnRest.1 ip fpRest.1)
    | 'E' :: rest => (expSuffix? rest).map (sciToRat sgnRest.1 ip fpRest.1)
    | _ => none

/-- Failure of `parse_doctags` (`src/app.py` lines 218-249): the Python
`ValueError` raised by `float()` on a non-numeric `bbox` token.  The spec
names this condition `MalformedBoundingBoxError`. -/
inductive ParseError
  | malformedBoundingBox
deriving DecidableEq, Repr

/-- A parsed table (`src/app.py` line 238): the `DataFrame` is modelled by
its column list `headers` and row list `rows`; `bbox` is the parsed
bounding box. -/
structure TableBlock where
  headers : List String
  rows : List (List String)
  bbox : List ℚ
deriving DecidableEq, Repr

/-- A parsed text block (`src/app.py` line 247). -/
structure TextBlock where
  content : String
  bbox : List ℚ
deriving DecidableEq, Repr

/-- Result of `parse_doctags` (`src/app.py` line 249). -/
structure ParsedDocument where
  tables : List TableBlock
  text_blocks : List TextBlock
deriving DecidableEq, Repr

/-- An `otsl` element of the markup tree, as seen by `parse_doctags`:
its `bbox` attribute string, the stripped-later text of the cells of its
`header` element, and the cell texts of each `row` element. -/
structure OtslTag where
  bbox : String
  header : List String
  rows : List (List String)
deriving DecidableEq, Repr

/-- A `text` element of the markup tree: its `bbox` attribute string and its
inner text. -/
structure TextTag where
  bbox : String
  content : String
deriving DecidableEq, Repr

/-- The element tree produced by `BeautifulSoup(doctags_xml, 'xml')`, as
consumed by `parse_doctags`: all `otsl` elements and all `text` elements in
document order. -/
structure Soup where
  otsls : List OtslTag
  texts : List TextTag
deriving DecidableEq, Repr

/-- `[float(x) for x in bbox_attr.split()]` (`src/app.py` lines 237 and 246):
convert every whitespace-separated token, failing on the first non-numeric
token.  No constraint is placed on the number of tokens. -/
def parseFloats : List String → Except ParseError (List ℚ)
  | [] => .ok []
  | t :: ts =>
    match pyFloat? t with
    | none => .error .malformedBoundingBox
    | some q =>
      match parseFloats ts with
      | .error e => .error e
      | .ok qs => .ok (q :: qs)

/-- Parse a `bbox` attribute value. -/
def parseBbox (s : String) : Except ParseError (List ℚ) := parseFloats (pySplitWs s)

/-- The rows kept for an `otsl` element (`src/app.py` lines 226-232): strip
every cell, keep a row only when its cell count equals the header's cell
count. -/
def keptRows (t : OtslTag) : List (List String) :=
  t.rows.filterMap (fun r =>
    let cells := r.map pyStrip
    if cells.length = (t.header.map pyStrip).length then some cells else none)

/-- Process one `otsl` element (`src/app.py` lines 225-238): build the header
list, filter the rows, and only when at least one row is kept parse the
`bbox` attribute and emit a table. -/
def parseOtsl (t : OtslTag) : Except ParseError (Option TableBlock) :=
  let headers := t.header.map pyStrip
  let table_data := keptRows t
  if table_data.isEmpty then .ok none
  else
    match parseBbox t.bbox with
    | .error e => .error e
    | .ok b => .ok (some ⟨headers, table_data, b⟩)

/-- The table loop of `parse_doctags` (`src/app.py` lines 223-238). -/
def parseTables : List OtslTag → Except ParseError (List TableBlock)
  | [] => .ok []
  | t :: ts =>
    match parseOtsl t with
    | .error e => .error e
    | .ok none => parseTables ts
    | .ok (some tb) =>
      match parseTables ts with
      | .error e => .error e
      | .ok tbs => .ok (tb :: tbs)

/-- Process one `text` element (`src/app.py` lines 243-247): strip the inner
text, skip the element when it strips to empty, otherwise parse its `bbox`. -/
def parseText (t : TextTag) : Except ParseError (Option TextBlock) :=
  let content := pyStrip t.content
  if content = "" then .ok none
  else
    match parseBbox t.bbox with
    | .error e => .error e
    | .ok b => .ok (some ⟨content, b⟩)

/-- The text loop of `parse_doctags` (`src/app.py` lines 241-247). -/
def parseTexts : List TextTag → Except ParseError (List TextBlock)
  | [] => .ok []
  | t :: ts =>
    match parseText t with
    | .error e => .error e
    | .ok none => parseTexts ts
    | .ok (some tb) =>
      match parseTexts ts with
      | .error e => .error e
      | .ok tbs => .ok (tb :: tbs)

/-- `parse_doctags` (`src/app.py` lines 218-249) on the element tree: all
tables first, then all text blocks; the first `float()` failure aborts the
whole parse with no partial result. -/
def parse_doctags (soup : Soup) : Except ParseError ParsedDocument :=
  match parseTables soup.otsls with
  | .error e => .error e
  | .ok tables =>
    match parseTexts soup.texts with
    | .error e => .error e
    | .ok tbs => .ok ⟨tables, tbs⟩

/-- The element tree of the hardcoded DocTags XML returned by
`SmolDoclingClient.process_document_page` (`src/app.py` lines 175-215): one
`otsl` element (header `Metric` / `2023 (in Millions)` and four data rows)
and two `text` elements.  Inner indentation whitespace of the `text` elements
is normalised to single spaces; it is removed by `strip` at the ends and
never inspected elsewhere. -/
def fixtureSoup : Soup :=
  ⟨[⟨"60 200 550 350",
     ["Metric", "2023 (in Millions)"],
     [["Total Revenue", "$1234.56"],
      ["Operating Expenses", "$850.00"],
      ["Net Income", "$384.56"],
      ["Earnings Per Share (EPS)", "0.52"]]⟩],
   [⟨"60 110 550 180",
     " FinTech Corp delivered robust performance in fiscal year 2023. Despite global economic headwinds, our diversified portfolio ensured stability. Our primary focus on digital transformation has yielded significant operational efficiencies. "⟩,
    ⟨"60 360 550 380",
     " Management expects continued growth of 5-7% in the upcoming fiscal year. "⟩]⟩

/-- The canonical fixture table as parsed from `fixtureSoup`. -/
def fixtureTable : TableBlock :=
  ⟨["Metric", "2023 (in Millions)"],
   [["Total Revenue", "$1234.56"],
    ["Operating Expenses", "$850.00"],
    ["Net Income", "$384.56"],
    ["Earnings Per Share (EPS)", "0.52"]],
   [60, 200, 550, 350]⟩

/-- The `ParsedDocument` obtained from `fixtureSoup`. -/
def fixtureDoc : ParsedDocument :=
  ⟨[fixtureTable],
   [⟨"FinTech Corp delivered robust performance in fiscal year 2023. Despite global economic headwinds, our diversified portfolio ensured stability. Our primary focus on digital transformation has yielded significant operational efficiencies.",
     [60, 110, 550, 180]⟩,
    ⟨"Management expects continued growth of 5-7% in the upcoming fiscal year.",
     [60, 360, 550, 380]⟩]⟩

/-- Failure of `extract_financial_metrics`: the Python `IndexError` raised by
`df.columns[k]` (fewer than 2 columns, `src/app.py` lines 264-265) or by
`tbl_bbox[k]` (bounding box with fewer than 3 entries, lines 283-287). -/
inductive ExtractError
  | indexError
deriving DecidableEq, Repr

/-- A visualization element appended to `viz_elements`
(`src/app.py` lines 286-300). -/
structure AnnotationRegion where
  bbox : List ℚ
  label : String
  type : String
  color : String
deriving DecidableEq, Repr

/-- The default vocabulary `target_metrics` (`src/app.py` line 259). -/
def target_metrics : List String := ["Revenue", "Net Income", "EPS", "Earnings Per Share"]

/-- `any(tm.lower() in label.lower() for tm in target_metrics)`
(`src/app.py` line 272). -/
def matchesVocab (vocab : List String) (label : String) : Bool :=
  vocab.any (fun tm => containsSub (pyLower tm).toList (pyLower label).toList)

/-- `label.split('(')[0].strip()` (`src/app.py` line 273): the text strictly
before the first opening parenthesis, stripped. -/
def cleanKey (label : String) : String :=
  ⟨pyStripChars (label.toList.takeWhile (fun c => c ≠ '('))⟩

/-- Python `dict` item assignment `d[k] = v`: replace the value in place when
the key is present, append otherwise. -/
def dictAssign (d : Dict) (k v : String) : Dict :=
  if d.any (fun p => p.1 == k) then d.map (fun p => if p.1 == k then (k, v) else p)
  else d ++ [(k, v)]

/-- `row_height = 25` (`src/app.py` line 281). -/
def row_height : ℚ := 25

/-- `header_height = 30` (`src/app.py` line 282). -/
def header_height : ℚ := 30

/-- State threaded through the extraction loops: the `metrics` dict and the
`viz_elements` list. -/
abbrev ExtractState := Dict × List AnnotationRegion

/-- The row loop of `extract_financial_metrics` for one table
(`src/app.py` lines 267-291).  `b` is the table's parsed `bbox`; `i` is the
`DataFrame` row index; the label and value are the row's cells in columns 0
and 1 (unique column names make `row[df.columns[k]]` positional). -/
def extractRows (vocab : List String) (b : List ℚ) (i : ℕ) :
    List (List String) → ExtractState → Except ExtractError ExtractState
  | [], st => .ok st
  | r :: rest, st =>
    let label := r.getD 0 ""
    let val := r.getD 1 ""
    if matchesVocab vocab label then
      match b with
      | x1 :: b1 :: x2 :: _ =>
        let ck := cleanKey label
        let y1v := ratAdd (ratAdd b1 header_height) (ratMulNat i row_height)
        let y2v := ratAdd y1v row_height
        extractRows vocab b (i + 1) rest
          (dictAssign st.1 ck val,
           st.2 ++ [⟨[x1, y1v, x2, y2v], ck ++ ": " ++ val, "metric_table", "blue"⟩])
      | _ => .error .indexError
    else extractRows vocab b (i + 1) rest st

/-- The table loop of `extract_financial_metrics`
(`src/app.py` lines 261-291): `df.columns[0]` and `df.columns[1]` raise
`IndexError` for a table with fewer than two columns; otherwise every row is
scanned. -/
def extractTables (vocab : List String) :
    List TableBlock → ExtractState → Except ExtractError ExtractState
  | [], st => .ok st
  | tb :: rest, st =>
    if tb.headers.length < 2 then .error .indexError
    else
      match extractRows vocab tb.bbox 0 tb.rows st with
      | .error e => .error e
      | .ok st1 => extractTables vocab rest st1

/-- The whole-table region appended for every parsed table
(`src/app.py` lines 294-300). -/
def tableRegion (tb : TableBlock) : AnnotationRegion :=
  ⟨tb.bbox, "Detected Table", "table", "purple"⟩

/-- `extract_financial_metrics` (`src/app.py` lines 252-302): scan every
table's rows against the vocabulary, then append one whole-table region per
table. -/
def extract_financial_metrics (doc : ParsedDocument) (vocab : List String) :
    Except ExtractError (Dict × List AnnotationRegion) :=
  match extractTables vocab doc.tables ([], []) with
  | .error e => .error e
  | .ok (m, viz) => .ok (m, viz ++ doc.tables.map tableRegion)

/-- Python `dict(pairs)`: left-to-right insertion with overwrite on duplicate
keys. -/
def pyDict (l : List (String × String)) : Dict :=
  l.foldl (fun d p => dictAssign d p.1 p.2) []

/-- `df.empty` for the modelled `DataFrame`: true when either axis has
length zero. -/
def tableEmpty (tb : TableBlock) : Bool := tb.rows.isEmpty || tb.headers.isEmpty

/-- `df.to_dict(orient="records")` (`src/app.py` line 383): one dict per row,
mapping each column name to the row's cell (dict semantics on the zipped
pairs). -/
def to_dict_records (tb : TableBlock) : List Dict :=
  tb.rows.map (fun r => pyDict (tb.headers.zip r))

/-- The structured value serialised by `json.dumps` in
`export_financial_data` (`src/app.py` lines 376-385).  The built Python
object always has this exact shape — `key_metrics` maps strings to strings
and every entry of `tables` is a single-key object holding a list of
string-to-string records — so the embedding uses the shape directly;
`json.dumps` followed by `json.loads` is the identity on it (a property of
the `json` library, outside the embedding). -/
structure JsonExport where
  key_metrics : Dict
  tables : List (String × List Dict)
deriving DecidableEq, Repr

/-- The table loop of the JSON export (`src/app.py` lines 380-384): skip
empty frames, keep the 1-based enumeration index in the key name. -/
def jsonTables (i : ℕ) : List TableBlock → List (String × List Dict)
  | [] => []
  | tb :: rest =>
    if tableEmpty tb then jsonTables (i + 1) rest
    else ("table_" ++ toString (i + 1), to_dict_records tb) :: jsonTables (i + 1) rest

/-- The JSON half of `export_financial_data` (`src/app.py` lines 375-385),
called `format_json` in the spec. -/
def format_json (metrics : Dict) (tables : List TableBlock) : JsonExport :=
  ⟨metrics, jsonTables 0 tables⟩

/-- Record list as the spec's round-trip property words it: the table's rows
zipped with its headers, with no dict collapse. -/
def zipRecords (tb : TableBlock) : List Dict :=
  tb.rows.map (fun r => tb.headers.zip r)

/-- The spec's description of the emitted tables (for the round-trip
refinement claim): like `jsonTables` but with plain zipped records. -/
def jsonTablesSpec (i : ℕ) : List TableBlock → List (String × List Dict)
  | [] => []
  | tb :: rest =>
    if tableEmpty tb then jsonTablesSpec (i + 1) rest
    else ("table_" ++ toString (i + 1), zipRecords tb) :: jsonTablesSpec (i + 1) rest

/-- The JSON export as the spec's round-trip property describes it:
`key_metrics` is exactly the input mapping and each emitted table's records
are exactly its rows zipped with its headers. -/
def format_json_spec (metrics : Dict) (tables : List TableBlock) : JsonExport :=
  ⟨metrics, jsonTablesSpec 0 tables⟩

/-- Failure of the CSV export: the Python `ValueError` raised by
`df.insert(0, 'Data_Type', ...)` when a column of that name already exists
(`src/app.py` line 365). -/
inductive ExportError
  | duplicateColumn
deriving DecidableEq, Repr

/-- `metrics_df` (`src/app.py` lines 358-359): columns
`Data_Type, Metric, Value`; one row per metrics entry. -/
def metricsFrame (metrics : Dict) : List String × List (List String) :=
  (["Data_Type", "Metric", "Value"],
   metrics.map (fun p => ["Key Metrics", p.1, p.2]))

/-- The table loop of the CSV export (`src/app.py` lines 361-366): skip empty
frames, insert the `Data_Type` column with the 1-based enumeration index. -/
def tableFrames (i : ℕ) :
    List TableBlock → Except ExportError (List (List String × List (List String)))
  | [] => .ok []
  | tb :: rest =>
    if tableEmpty tb then tableFrames (i + 1) rest
    else if tb.headers.contains "Data_Type" then .error .duplicateColumn
    else
      match tableFrames (i + 1) rest with
      | .error e => .error e
      | .ok dfs =>
        .ok (("Data_Type" :: tb.headers,
              tb.rows.map (fun r => ("Table_" ++ toString (i + 1)) :: r)) :: dfs)

/-- Column union of `pd.concat(..., sort=False)`: the first frame's columns,
then each later frame's new columns in order of appearance. -/
def unionCols (colss : List (List String)) : List String :=
  colss.foldl (fun acc cols => acc ++ cols.filter (fun c => !acc.contains c)) []

/-- Index of the first occurrence of a column name. -/
def idxOf? (c : String) : List String → Option ℕ
  | [] => none
  | x :: xs => if x == c then some 0 else (idxOf? c xs).map (· + 1)

/-- Reindex one frame row to the combined column list: `none` (pandas `NaN`)
in the columns the frame does not have; positional lookup agrees with pandas
for unique column names. -/
def alignRow (cols dfCols : List String) (row : List String) : List (Option String) :=
  cols.map (fun c =>
    match idxOf? c dfCols with
    | some j => row[j]?
    | none => none)

/-- `pd.concat(final_df_list, ignore_index=True, sort=False)`
(`src/app.py` line 369) for frames with unique column names. -/
def concatFrames (dfs : List (List String × List (List String))) :
    List String × List (List (Option String)) :=
  let cols := unionCols (dfs.map Prod.fst)
  (cols, dfs.flatMap (fun df => df.2.map (alignRow cols df.1)))

/-- The combined frame behind the CSV export (`src/app.py` lines 357-369):
the metrics frame first, then the per-table frames. -/
def format_csv_frames (metrics : Dict) (tables : List TableBlock) :
    Except ExportError (List String × List (List (Option String))) :=
  match tableFrames 0 tables with
  | .error e => .error e
  | .ok dfs => .ok (concatFrames (metricsFrame metrics :: dfs))

/-- Minimal CSV field quoting as in `to_csv` (`csv.QUOTE_MINIMAL`). -/
def csvQuote (s : String) : String :=
  if s.toList.any (fun c => c == ',' || c == '\"' || c == '\n' || c == '\r') then
    "\"" ++ ⟨s.toList.flatMap (fun c => if c == '\"' then ['\"', '\"'] else [c])⟩ ++ "\""
  else s

/-- `combined_df.to_csv(index=False)` (`src/app.py` line 372): header line
then one line per row, `NaN` rendered as the empty field. -/
def csvRender (cols : List String) (rows : List (List (Option String))) : String :=
  String.intercalate "," (cols.map csvQuote) ++ "\n" ++
    String.join (rows.map (fun r =>
      String.intercalate "," (r.map (fun c => csvQuote (c.getD ""))) ++ "\n"))

/-- The CSV half of `export_financial_data` (`src/app.py` lines 357-373),
called `format_csv` in the spec. -/
def format_csv (metrics : Dict) (tables : List TableBlock) : Except ExportError String :=
  match format_csv_frames metrics tables with
  | .error e => .error e
  | .ok (cols, rows) => .ok (csvRender cols rows)

/-- The `(clean_key, val)` writes performed on the metrics dict by scanning a
table's rows in order (`src/app.py` lines 267-274). -/
def rowWrites (vocab : List String) (rows : List (List String)) : List (String × String) :=
  rows.filterMap (fun r =>
    if matchesVocab vocab (r.getD 0 "") then
      some (cleanKey (r.getD 0 ""), r.getD 1 "")
    else none)

/-- All metric writes of an extraction run, in scan order (table order, then
row order). -/
def matchedWrites (doc : ParsedDocument) (vocab : List String) : List (String × String) :=
  doc.tables.flatMap (fun tb => rowWrites vocab tb.rows)

/-- The expected metrics mapping for the canonical fixture. -/
def fixtureMetrics : Dict :=
  [("Total Revenue", "$1234.56"), ("Net Income", "$384.56"),
   ("Earnings Per Share", "0.52")]

/-- The expected annotation regions for the canonical fixture: three
metric-row regions then the whole-table region. -/
def fixtureRegions : List AnnotationRegion :=
  [⟨[60, 230, 550, 255], "Total Revenue: $1234.56", "metric_table", "blue"⟩,
   ⟨[60, 280, 550, 305], "Net Income: $384.56", "metric_table", "blue"⟩,
   ⟨[60, 305, 550, 330], "Earnings Per Share: 0.52", "metric_table", "blue"⟩,
   ⟨[60, 200, 550, 350], "Detected Table", "table", "purple"⟩]

/-- A markup tree whose one table has a `bbox` attribute with three numeric
tokens (not four). -/
def threeTokenSoup : Soup := ⟨[⟨"60 200 550", ["A", "B"], [["x", "y"]]⟩], []⟩

/-- A markup tree whose one table has a `bbox` attribute with a non-numeric
token. -/
def badTokenSoup : Soup := ⟨[⟨"60 abc 550 350", ["A", "B"], [["x", "y"]]⟩], []⟩

/-- A parsed document containing a single-column table whose only row's label
matches the default vocabulary. -/
def narrowDoc : ParsedDocument := ⟨[⟨["Metric"], [["Total Revenue"]], [0, 0, 10, 10]⟩], []⟩

/-- A table element mixing rows with the right cell count (2) and rows with
too many or too few cells. -/
def mixedRowsTag : OtslTag :=
  ⟨"0 0 10 10", ["H1", "H2"], [["a", "b"], ["x", "y", "z"], ["c", "d"], ["e"]]⟩

/-- The document parsed from a tree containing only `mixedRowsTag`. -/
def mixedDoc : ParsedDocument :=
  ⟨[⟨["H1", "H2"], [["a", "b"], ["c", "d"]], [0, 0, 10, 10]⟩], []⟩

/-- A table whose two matched rows clean to the same key `Revenue X`. -/
def dupKeyTable : TableBlock :=
  ⟨["A", "B"], [["Revenue X", "1"], ["Revenue X (adj)", "2"]], [0, 0, 100, 100]⟩

/-- Document holding `dupKeyTable`. -/
def dupKeyDoc : ParsedDocument := ⟨[dupKeyTable], []⟩

/-- The visualization elements produced by extracting `dupKeyDoc`. -/
def dupKeyViz : List AnnotationRegion :=
  [⟨[0, 30, 100, 55], "Revenue X: 1", "metric_table", "blue"⟩,
   ⟨[0, 55, 100, 80], "Revenue X: 2", "metric_table", "blue"⟩,
   ⟨[0, 0, 100, 100], "Detected Table", "table", "purple"⟩]

/-- A small table for the JSON round-trip witness. -/
def jsonWitnessTable : TableBlock := ⟨["H1", "H2"], [["a", "b"]], [0, 0, 1, 1]⟩

/-- A non-empty table whose headers are disjoint from `Metric` and `Value`,
for the CSV witness. -/
def csvWitnessTable : TableBlock := ⟨["Item", "Amount"], [["Cash", "100"]], [0, 0, 10, 10]⟩

theorem ratAdd_eq (a b : ℚ) : ratAdd a b = a + b := by
  unfold ratAdd
  rw [Rat.mkRat_eq_div]
  push_cast
  conv_rhs => rw [← Rat.num_div_den a, ← Rat.num_div_den b]
  rw [div_add_div _ _ (by positivity) (by positivity)]
  ring_nf

theorem ratMulNat_eq (i : ℕ) (b : ℚ) : ratMulNat i b = (i : ℚ) * b := by
  unfold ratMulNat
  rw [Rat.mkRat_eq_div]
  push_cast
  rw [mul_div_assoc, Rat.num_div_den]

/-- C1: on the canonical fixture document (the hardcoded table with headers
`Metric` / `2023 (in Millions)` and four rows), extraction with the default
vocabulary returns exactly the mapping
`{Total Revenue: $1234.56, Net Income: $384.56, Earnings Per Share: 0.52}`
and exactly 4 annotation regions, 3 metric-row regions plus 1 whole-table
region. -/
theorem fixture_extraction_exact :
    parse_doctags fixtureSoup = .ok fixtureDoc ∧
    extract_financial_metrics fixtureDoc target_metrics =
      .ok (fixtureMetrics, fixtureRegions) ∧
    fixtureMetrics =
      [("Total Revenue", "$1234.56"), ("Net Income", "$384.56"),
       ("Earnings Per Share", "0.52")] ∧
    fixtureRegions.length = 4 ∧
    (fixtureRegions.filter (fun e => e.type == "metric_table")).length = 3 ∧
    (fixtureRegions.filter (fun e => e.type == "table")).length = 1 := by
  decide

/-- C2 counterexample: a `bbox` attribute whose value has three numeric
tokens (a token count different from four) does not make `parse` fail — the
document parses successfully and keeps the three-entry bounding box. -/
theorem parse_accepts_three_token_bbox :
    parse_doctags threeTokenSoup =
      .ok ⟨[⟨["A", "B"], [["x", "y"]], [60, 200, 550]⟩], []⟩ := by
  decide

/-- C3 counterexample: a document containing a table with a single column is
not skipped by extraction — extraction fails with an `IndexError` (from
`df.columns[1]`). -/
theorem extract_narrow_table_not_skipped :
    extract_financial_metrics narrowDoc target_metrics = .error .indexError := by
  decide

/-- C9 counterexample: with an empty metrics mapping and the canonical
fixture table (whose own headers include `Metric`), the combined CSV frame
has the table's first-column labels in the `Metric` column — the table rows'
`Metric` cells are not empty. -/
theorem csv_metric_cells_not_empty_for_fixture :
    format_csv_frames [] [fixtureTable] =
      .ok (["Data_Type", "Metric", "Value", "2023 (in Millions)"],
           [[some "Table_1", some "Total Revenue", none, some "$1234.56"],
            [some "Table_1", some "Operating Expenses", none, some "$850.00"],
            [some "Table_1", some "Net Income", none, some "$384.56"],
            [some "Table_1", some "Earnings Per Share (EPS)", none, some "0.52"]]) := by
  decide
/-- Sanity facts about the float-token model, mirroring Python `float()` on
representative tokens. -/
theorem pyFloat?_samples :
    pyFloat? "0.52" = some (mkRat 52 100) ∧
    pyFloat? "-1.5e2" = some (mkRat (-150) 1) ∧
    pyFloat? "1." = some 1 ∧
    pyFloat? "abc" = none ∧
    pyFloat? "." = none ∧
    pyFloat? "" = none := by
  decide

theorem parseError_eq (e : ParseError) : e = .malformedBoundingBox := by
  cases e
  rfl

theorem parseFloats_error_of_bad_token (l : List String)
    (h : ∃ tok ∈ l, pyFloat? tok = none) :
    parseFloats l = .error .malformedBoundingBox := by
  induction l with
  | nil => simp at h
  | cons t ts ih =>
    rcases h with ⟨tok, htok, hbad⟩
    rcases List.mem_cons.mp htok with rfl | hmem
    · simp [parseFloats, hbad]
    · cases hpf : pyFloat? t with
      | none => simp [parseFloats, hpf]
      | some q =>
        have hrec := ih ⟨tok, hmem, hbad⟩
        simp [parseFloats, hpf, hrec]

theorem parseOtsl_error_of_bad_token (t : OtslTag)
    (hkr : keptRows t ≠ [])
    (h : ∃ tok ∈ pySplitWs t.bbox, pyFloat? tok = none) :
    parseOtsl t = .error .malformedBoundingBox := by
  have hb : parseBbox t.bbox = .error .malformedBoundingBox :=
    parseFloats_error_of_bad_token _ h
  have hkr2 : (keptRows t).isEmpty = false := by
    simpa [List.isEmpty_iff] using hkr
  simp [parseOtsl, hkr2, hb]

theorem parseText_error_of_bad_token (t : TextTag)
    (hc : pyStrip t.content ≠ "")
    (h : ∃ tok ∈ pySplitWs t.bbox, pyFloat? tok = none) :
    parseText t = .error .malformedBoundingBox := by
  have hb : parseBbox t.bbox = .error .malformedBoundingBox :=
    parseFloats_error_of_bad_token _ h
  simp [parseText, hc, hb]

theorem parseTables_error_of_mem (ts : List OtslTag)
    (h : ∃ t ∈ ts, parseOtsl t = .error .malformedBoundingBox) :
    parseTables ts = .error .malformedBoundingBox := by
  induction ts with
  | nil => simp at h
  | cons t ts ih =>
    rcases h with ⟨t0, ht0, herr⟩
    rcases List.mem_cons.mp ht0 with rfl | hmem
    · simp [parseTables, herr]
    · cases hp : parseOtsl t with
      | error e => simp [parseTables, hp, parseError_eq e]
      | ok o =>
        have hrec := ih ⟨t0, hmem, herr⟩
        cases o with
        | none => simp [parseTables, hp, hrec]
        | some tb => simp [parseTables, hp, hrec]

theorem parseTexts_error_of_mem (ts : List TextTag)
    (h : ∃ t ∈ ts, parseText t = .error .malformedBoundingBox) :
    parseTexts ts = .error .malformedBoundingBox := by
  induction ts with
  | nil => simp at h
  | cons t ts ih =>
    rcases h with ⟨t0, ht0, herr⟩
    rcases List.mem_cons.mp ht0 with rfl | hmem
    · simp [parseTexts, herr]
    · cases hp : parseText t with
      | error e => simp [parseTexts, hp, parseError_eq e]
      | ok o =>
        have hrec := ih ⟨t0, hmem, herr⟩
        cases o with
        | none => simp [parseTexts, hp, hrec]
        | some tb => simp [parseTexts, hp, hrec]

/-- C2 (amended): the parse fails with the bounding-box error exactly on a
non-numeric token — a `bbox` attribute that is actually read (on a table
element keeping at least one row, or on a text element with non-empty
stripped content) and has a token `float()` rejects aborts the whole parse;
the token count is never checked. -/
theorem parse_fails_on_nonnumeric_bbox_token (soup : Soup)
    (h : (∃ t ∈ soup.otsls,
            keptRows t ≠ [] ∧ ∃ tok ∈ pySplitWs t.bbox, pyFloat? tok = none) ∨
         (∃ x ∈ soup.texts,
            pyStrip x.content ≠ "" ∧ ∃ tok ∈ pySplitWs x.bbox, pyFloat? tok = none)) :
    parse_doctags soup = .error .malformedBoundingBox := by
  rcases h with ⟨t, ht, hkr, hbad⟩ | ⟨x, hx, hc, hbad⟩
  · have herr := parseTables_error_of_mem soup.otsls
      ⟨t, ht, parseOtsl_error_of_bad_token t hkr hbad⟩
    simp [parse_doctags, herr]
  · cases hpt : parseTables soup.otsls with
    | error e => simp [parse_doctags, hpt, parseError_eq e]
    | ok tables =>
      have herr := parseTexts_error_of_mem soup.texts
        ⟨x, hx, parseText_error_of_bad_token x hc hbad⟩
      simp [parse_doctags, hpt, herr]

/-- C2 witness: `badTokenSoup`'s table keeps one row and its bbox attribute
`60 abc 550 350` has the non-numeric token `abc`, so the parse aborts. -/
theorem parse_fails_on_nonnumeric_bbox_token_witness :
    parse_doctags badTokenSoup = .error .malformedBoundingBox :=
  parse_fails_on_nonnumeric_bbox_token badTokenSoup (by decide)

theorem parseOtsl_some_rows_ne (t : OtslTag) (tb : TableBlock)
    (h : parseOtsl t = .ok (some tb)) : tb.rows ≠ [] := by
  by_cases he : (keptRows t).isEmpty
  · simp [parseOtsl, he] at h
  · have hkr : keptRows t ≠ [] := by
      simpa [List.isEmpty_iff] using he
    cases hb : parseBbox t.bbox with
    | error e => simp [parseOtsl, he, hb] at h
    | ok b =>
      simp [parseOtsl, he, hb] at h
      rw [← h]
      simpa using hkr

theorem parseTables_rows_ne (ts : List OtslTag) (res : List TableBlock)
    (h : parseTables ts = .ok res) : ∀ tb ∈ res, tb.rows ≠ [] := by
  induction ts generalizing res with
  | nil =>
    simp [parseTables] at h
    subst h
    simp
  | cons t ts ih =>
    cases hp : parseOtsl t with
    | error e => simp [parseTables, hp] at h
    | ok o =>
      cases o with
      | none =>
        simp [parseTables, hp] at h
        exact ih res h
      | some tb0 =>
        cases hrec : parseTables ts with
        | error e => simp [parseTables, hp, hrec] at h
        | ok tbs =>
          simp [parseTables, hp, hrec] at h
          subst h
          intro tb htb
          rcases List.mem_cons.mp htb with rfl | hmem
          · exact parseOtsl_some_rows_ne t tb hp
          · exact ih tbs hrec tb hmem

/-- C10: every `TableBlock` in a `ParsedDocument` returned by the parse has
at least one row — a table element all of whose data rows mismatch the
header cell count (or that has no data rows) is dropped entirely rather than
appearing as an empty table. -/
theorem parsed_tables_nonempty_rows (soup : Soup) (d : ParsedDocument)
    (h : parse_doctags soup = .ok d) : ∀ tb ∈ d.tables, tb.rows ≠ [] := by
  cases hpt : parseTables soup.otsls with
  | error e => simp [parse_doctags, hpt] at h
  | ok tables =>
    cases hx : parseTexts soup.texts with
    | error e => simp [parse_doctags, hpt, hx] at h
    | ok txts =>
      simp [parse_doctags, hpt, hx] at h
      subst h
      simpa using parseTables_rows_ne soup.otsls tables hpt

/-- C10 witness: the tree containing `mixedRowsTag` parses to `mixedDoc`,
whose single table indeed has a non-empty row list. -/
theorem parsed_tables_nonempty_rows_witness :
    (⟨["H1", "H2"], [["a", "b"], ["c", "d"]], [0, 0, 10, 10]⟩ : TableBlock).rows ≠ [] :=
  parsed_tables_nonempty_rows ⟨[mixedRowsTag], []⟩ mixedDoc (by decide)
    ⟨["H1", "H2"], [["a", "b"], ["c", "d"]], [0, 0, 10, 10]⟩ (by decide)

theorem filterMap_strip_eq (H : List String) (rows : List (List String)) :
    (rows.filterMap (fun r =>
      let cells := r.map pyStrip
      if cells.length = (H.map pyStrip).length then some cells else none)) =
      (rows.map (fun r => r.map pyStrip)).filter
        (fun r => r.length == H.length) := by
  have hfun : (fun (r : List String) =>
      let cells := r.map pyStrip
      if cells.length = (H.map pyStrip).length then some cells else none) =
      (fun r => if r.length = H.length then some (r.map pyStrip) else none) := by
    funext r
    simp [List.length_map]
  rw [hfun]
  induction rows with
  | nil => rfl
  | cons r rows ih =>
    by_cases hl : r.length = H.length
    · simp [List.filterMap_cons, List.filter_cons, List.length_map, hl, ih]
    · simp [List.filterMap_cons, List.filter_cons, List.length_map, hl, ih]

theorem keptRows_eq_filter (t : OtslTag) :
    keptRows t =
      (t.rows.map (fun r => r.map pyStrip)).filter
        (fun r => r.length == t.header.length) :=
  filterMap_strip_eq t.header t.rows

/-- C5: a well-formed table element (parsable `bbox`, at least one row with
the right cell count) whose data rows mix valid and invalid cell counts
parses, with no error, to a `TableBlock` containing exactly the rows whose
cell count equals the header's column count, in document order. -/
theorem parse_keeps_exactly_matching_rows (t : OtslTag) (bb : List ℚ)
    (hbb : parseBbox t.bbox = .ok bb)
    (hkr : keptRows t ≠ []) :
    parse_doctags ⟨[t], []⟩ =
      .ok ⟨[⟨t.header.map pyStrip,
             (t.rows.map (fun r => r.map pyStrip)).filter
               (fun r => r.length == t.header.length),
             bb⟩], []⟩ := by
  have hkr2 : (keptRows t).isEmpty = false := by
    simpa [List.isEmpty_iff] using hkr
  have hotsl : parseOtsl t = .ok (some ⟨t.header.map pyStrip, keptRows t, bb⟩) := by
    simp [parseOtsl, hkr2, hbb]
  simp [parse_doctags, parseTables, parseTexts, hotsl, keptRows_eq_filter]

/-- C5 witness: `mixedRowsTag` has rows of lengths 2, 3, 2, 1 under a
2-column header; exactly the two length-2 rows survive, in order. -/
theorem parse_keeps_exactly_matching_rows_witness :
    parse_doctags ⟨[mixedRowsTag], []⟩ =
      .ok ⟨[⟨["H1", "H2"], [["a", "b"], ["c", "d"]], [0, 0, 10, 10]⟩], []⟩ :=
  parse_keeps_exactly_matching_rows mixedRowsTag [0, 0, 10, 10] (by decide) (by decide)

theorem extractError_eq (e : ExtractError) : e = .indexError := by
  cases e
  rfl

theorem extractRows_no_error (vocab : List String) (x1 b1 x2 : ℚ) (brest : List ℚ)
    (rows : List (List String)) :
    ∀ (i : ℕ) (st : ExtractState) (e : ExtractError),
      extractRows vocab (x1 :: b1 :: x2 :: brest) i rows st ≠ .error e := by
  induction rows with
  | nil =>
    intro i st e h
    simp [extractRows] at h
  | cons r rest ih =>
    intro i st e h
    by_cases hm : matchesVocab vocab (r.getD 0 "") = true
    · simp only [extractRows, hm, if_true] at h
      exact ih _ _ _ h
    · simp only [extractRows, hm, Bool.false_eq_true, if_false] at h
      exact ih _ _ _ h

theorem length_four_eq (l : List ℚ) (h : l.length = 4) :
    ∃ a b c d, l = [a, b, c, d] := by
  rcases l with _ | ⟨a, _ | ⟨b, _ | ⟨c, _ | ⟨d, _ | _⟩⟩⟩⟩ <;> simp_all

theorem extractTables_ok (vocab : List String) (tables : List TableBlock)
    (h : ∀ tb ∈ tables, 2 ≤ tb.headers.length ∧ tb.bbox.length = 4) :
    ∀ st : ExtractState, ∃ st2, extractTables vocab tables st = .ok st2 := by
  induction tables with
  | nil =>
    intro st
    exact ⟨st, rfl⟩
  | cons tb rest ih =>
    intro st
    obtain ⟨h2, h4⟩ := h tb (List.mem_cons_self tb rest)
    have hnlt : ¬ tb.headers.length < 2 := by omega
    obtain ⟨a, b, c, d, hbb⟩ := length_four_eq tb.bbox h4
    cases hres : extractRows vocab tb.bbox 0 tb.rows st with
    | error e =>
      rw [hbb] at hres
      exact absurd hres (extractRows_no_error vocab a b c [d] tb.rows 0 st e)
    | ok st1 =>
      obtain ⟨st2, hst2⟩ := ih (fun x hx => h x (List.mem_cons_of_mem tb hx)) st1
      exact ⟨st2, by simp [extractTables, hnlt, hres, hst2]⟩

theorem extractTables_error_of_narrow (vocab : List String) (tables : List TableBlock)
    (h : ∃ tb ∈ tables, tb.headers.length < 2) :
    ∀ st : ExtractState, extractTables vocab tables st = .error .indexError := by
  induction tables with
  | nil => simp at h
  | cons tb rest ih =>
    intro st
    by_cases hlt : tb.headers.length < 2
    · simp [extractTables, hlt]
    · rcases h with ⟨tb0, htb0, hn⟩
      rcases List.mem_cons.mp htb0 with rfl | hmem
      · exact absurd hn hlt
      · cases hres : extractRows vocab tb.bbox 0 tb.rows st with
        | error e => simp [extractTables, hlt, hres, extractError_eq e]
        | ok st1 => simp [extractTables, hlt, hres, ih ⟨tb0, hmem, hn⟩ st1]

/-- C3 (amended): extraction raises no error for any well-formed
`ParsedDocument` (4-entry bounding boxes) in which every table has at least
two columns; but a table with fewer than two columns is not skipped —
its presence makes extraction fail with an `IndexError`
(from `df.columns[1]`). -/
theorem extract_narrow_table_behavior (doc : ParsedDocument) (vocab : List String) :
    ((∀ tb ∈ doc.tables, 2 ≤ tb.headers.length ∧ tb.bbox.length = 4) →
      ∃ out, extract_financial_metrics doc vocab = .ok out) ∧
    ((∃ tb ∈ doc.tables, tb.headers.length < 2) →
      extract_financial_metrics doc vocab = .error .indexError) := by
  constructor
  · intro h
    obtain ⟨st2, hst2⟩ := extractTables_ok vocab doc.tables h ([], [])
    exact ⟨(st2.1, st2.2 ++ doc.tables.map tableRegion),
      by simp [extract_financial_metrics, hst2]⟩
  · intro h
    have herr := extractTables_error_of_narrow vocab doc.tables h ([], [])
    simp [extract_financial_metrics, herr]

/-- C3 witness: the fixture document (tables all 2-column, 4-entry bboxes)
extracts without error, and the single-column `narrowDoc` makes extraction
fail. -/
theorem extract_narrow_table_behavior_witness :
    (∃ out, extract_financial_metrics fixtureDoc target_metrics = .ok out) ∧
    extract_financial_metrics narrowDoc target_metrics = .error .indexError :=
  ⟨(extract_narrow_table_behavior fixtureDoc target_metrics).1 (by decide),
   (extract_narrow_table_behavior narrowDoc target_metrics).2 (by decide)⟩

theorem option_map_or {α β : Type} (f : α → β) (a b : Option α) :
    (a.or b).map f = (a.map f).or (b.map f) := by
  cases a <;> simp

theorem map_assign_id (d : Dict) (k0 v : String)
    (h : ∀ p ∈ d, (p.1 == k0) = false) :
    d.map (fun p => if p.1 == k0 then (k0, v) else p) = d := by
  induction d with
  | nil => rfl
  | cons q d ih =>
    have hq := h q (List.mem_cons_self q d)
    simp only [List.map_cons, hq, Bool.false_eq_true, if_false]
    rw [ih (fun p hp => h p (List.mem_cons_of_mem q hp))]

theorem find?_map_assign (d : Dict) (k0 v k : String)
    (hany : d.any (fun p => p.1 == k0) = true) :
    ((d.map (fun p => if p.1 == k0 then (k0, v) else p)).find?
        (fun p => p.1 == k)).map Prod.snd =
      if k0 == k then some v
      else (d.find? (fun p => p.1 == k)).map Prod.snd := by
  induction d with
  | nil => simp at hany
  | cons q d ih =>
    by_cases hq : (q.1 == k0) = true
    · simp only [List.map_cons, hq, if_true]
      by_cases hk : (k0 == k) = true
      · simp [List.find?_cons, hk]
      · have hqk : (q.1 == k) = false := by
          have h1 : q.1 = k0 := eq_of_beq hq
          have h2 : ¬ k0 = k := fun hh => hk (beq_iff_eq.mpr hh)
          simp [h1]
          exact h2
        simp only [List.find?_cons, hk, Bool.false_eq_true, if_false, hqk]
        by_cases hd : d.any (fun p => p.1 == k0) = true
        · have := ih hd
          simp only [hk, Bool.false_eq_true, if_false] at this
          exact this
        · have hnone : ∀ p ∈ d, (p.1 == k0) = false := by
            intro p hp
            by_contra hc
            exact hd (List.any_eq_true.mpr ⟨p, hp, by simpa using hc⟩)
          rw [map_assign_id d k0 v hnone]
    · have hany2 : d.any (fun p => p.1 == k0) = true := by
        rcases List.any_eq_true.mp hany with ⟨p, hp, hpk⟩
        rcases List.mem_cons.mp hp with rfl | hmem
        · simp at hpk
          exact absurd (by simpa using hpk) (by simpa using hq)
        · exact List.any_eq_true.mpr ⟨p, hmem, hpk⟩
      simp only [List.map_cons, hq, Bool.false_eq_true, if_false]
      by_cases hqk : (q.1 == k) = true
      · have hkk : (k0 == k) = false := by
          have h1 : q.1 = k := eq_of_beq hqk
          have h2 : ¬ k0 = k := by
            intro hh
            have hq2 : ¬ q.1 = k0 := by simpa using hq
            exact hq2 (h1.trans hh.symm)
          simpa using h2
        simp [List.find?_cons, hqk, hkk]
      · simp only [List.find?_cons, hqk, Bool.false_eq_true, if_false]
        exact ih hany2

theorem find?_dictAssign (d : Dict) (k0 v k : String) :
    ((dictAssign d k0 v).find? (fun p => p.1 == k)).map Prod.snd =
      if k0 == k then some v
      else (d.find? (fun p => p.1 == k)).map Prod.snd := by
  unfold dictAssign
  by_cases hany : d.any (fun p => p.1 == k0) = true
  · simp only [hany, if_true]
    exact find?_map_assign d k0 v k hany
  · simp only [hany, Bool.false_eq_true, if_false]
    rw [List.find?_append]
    by_cases hk : (k0 == k) = true
    · have hnone : d.find? (fun p => p.1 == k) = none := by
        rw [List.find?_eq_none]
        intro p hp
        have : (p.1 == k0) = false := by
          by_contra hc
          exact hany (List.any_eq_true.mpr ⟨p, hp, by simpa using hc⟩)
        have hk' : k0 = k := eq_of_beq hk
        simp [← hk']
        simpa using this
      simp [hnone, List.find?_cons, hk]
    · simp [List.find?_cons, hk, Option.or_none]

theorem find?_foldl_dictAssign (l : List (String × String)) (d : Dict) (k : String) :
    (((l.foldl (fun d2 p => dictAssign d2 p.1 p.2) d).find?
        (fun p => p.1 == k)).map Prod.snd) =
      ((l.reverse.find? (fun p => p.1 == k)).map Prod.snd).or
        ((d.find? (fun p => p.1 == k)).map Prod.snd) := by
  induction l generalizing d with
  | nil => simp
  | cons p l ih =>
    simp only [List.foldl_cons, List.reverse_cons]
    rw [ih, List.find?_append, option_map_or, Option.or_assoc, find?_dictAssign]
    by_cases hk : (p.1 == k) = true
    · simp [List.find?_cons, hk]
    · simp [List.find?_cons, hk]

theorem extractRows_fst (vocab : List String) (b : List ℚ) (rows : List (List String)) :
    ∀ (i : ℕ) (st st2 : ExtractState),
      extractRows vocab b i rows st = .ok st2 →
      st2.1 = (rowWrites vocab rows).foldl (fun d2 p => dictAssign d2 p.1 p.2) st.1 := by
  induction rows with
  | nil =>
    intro i st st2 h
    simp [extractRows] at h
    rw [← h]
    simp [rowWrites]
  | cons r rest ih =>
    intro i st st2 h
    by_cases hm : matchesVocab vocab (r[0]?.getD "") = true
    · rcases b with _ | ⟨x1, rest1⟩
      · simp [extractRows, hm] at h
      · rcases rest1 with _ | ⟨b1, rest2⟩
        · simp [extractRows, hm] at h
        · rcases rest2 with _ | ⟨x2, brest⟩
          · simp [extractRows, hm] at h
          · simp only [extractRows] at h
            rw [if_pos (by simpa [List.getD] using hm)] at h
            have hstep := ih (i + 1) _ st2 h
            rw [hstep]
            simp [rowWrites, List.filterMap_cons, hm, List.getD]
    · simp only [extractRows] at h
      rw [if_neg (by simpa [List.getD] using hm)] at h
      have hstep := ih (i + 1) st st2 h
      rw [hstep]
      simp [rowWrites, List.filterMap_cons, hm, List.getD]

theorem extractTables_fst (vocab : List String) (tables : List TableBlock) :
    ∀ (st st2 : ExtractState),
      extractTables vocab tables st = .ok st2 →
      st2.1 = (tables.flatMap (fun tb => rowWrites vocab tb.rows)).foldl
        (fun d2 p => dictAssign d2 p.1 p.2) st.1 := by
  induction tables with
  | nil =>
    intro st st2 h
    simp [extractTables] at h
    rw [← h]
    simp
  | cons tb rest ih =>
    intro st st2 h
    by_cases hlt : tb.headers.length < 2
    · simp [extractTables, hlt] at h
    · cases hres : extractRows vocab tb.bbox 0 tb.rows st with
      | error e => simp [extractTables, hlt, hres] at h
      | ok st1 =>
        simp only [extractTables, hlt, if_false] at h
        rw [hres] at h
        have h2 := ih st1 st2 h
        have h1 := extractRows_fst vocab tb.bbox tb.rows 0 st st1 hres
        rw [h2, h1, List.flatMap_cons, List.foldl_append]

/-- C7: the output mapping realises last-write-wins over the scan order
(table order then row order): for every key, the mapping's value is the value
of the last matched row whose cleaned key is that key. -/
theorem metrics_last_write_wins (doc : ParsedDocument) (vocab : List String)
    (m : Dict) (viz : List AnnotationRegion)
    (h : extract_financial_metrics doc vocab = .ok (m, viz)) (k : String) :
    (m.find? (fun p => p.1 == k)).map Prod.snd =
      ((matchedWrites doc vocab).reverse.find? (fun p => p.1 == k)).map Prod.snd := by
  cases hres : extractTables vocab doc.tables ([], []) with
  | error e => simp [extract_financial_metrics, hres] at h
  | ok st1 =>
    simp only [extract_financial_metrics, hres] at h
    have hm1 : st1.1 = m := by
      cases st1
      simp at h
      exact h.1
    have hfst := extractTables_fst vocab doc.tables ([], []) st1 hres
    rw [← hm1, hfst, find?_foldl_dictAssign]
    simp [matchedWrites]

/-- C7 witness: in `dupKeyDoc` the rows `Revenue X / 1` and
`Revenue X (adj) / 2` clean to the same key, and the mapping holds the later
value `2`. -/
theorem metrics_last_write_wins_witness :
    (([("Revenue X", "2")] : Dict).find? (fun p => p.1 == "Revenue X")).map Prod.snd =
      ((matchedWrites dupKeyDoc target_metrics).reverse.find?
          (fun p => p.1 == "Revenue X")).map Prod.snd :=
  metrics_last_write_wins dupKeyDoc target_metrics [("Revenue X", "2")] dupKeyViz
    (by decide) "Revenue X"

theorem extractRows_viz_mono (vocab : List String) (b : List ℚ) (rows : List (List String)) :
    ∀ (i : ℕ) (st st2 : ExtractState),
      extractRows vocab b i rows st = .ok st2 → ∀ e ∈ st.2, e ∈ st2.2 := by
  induction rows with
  | nil =>
    intro i st st2 h e he
    simp [extractRows] at h
    rw [← h]
    exact he
  | cons r rest ih =>
    intro i st st2 h e he
    by_cases hm : matchesVocab vocab (r[0]?.getD "") = true
    · rcases b with _ | ⟨x1, rest1⟩
      · simp [extractRows, hm] at h
      · rcases rest1 with _ | ⟨b1, rest2⟩
        · simp [extractRows, hm] at h
        · rcases rest2 with _ | ⟨x2, brest⟩
          · simp [extractRows, hm] at h
          · simp only [extractRows] at h
            rw [if_pos (by simpa [List.getD] using hm)] at h
            exact ih (i + 1) _ st2 h e (List.mem_append.mpr (Or.inl he))
    · simp only [extractRows] at h
      rw [if_neg (by simpa [List.getD] using hm)] at h
      exact ih (i + 1) st st2 h e he

theorem extractRows_viz_hit (vocab : List String) (x1 b1 x2 : ℚ) (brest : List ℚ)
    (rows : List (List String)) :
    ∀ (i j : ℕ) (r : List String) (st st2 : ExtractState),
      extractRows vocab (x1 :: b1 :: x2 :: brest) i rows st = .ok st2 →
      rows[j]? = some r →
      matchesVocab vocab (r[0]?.getD "") = true →
      (⟨[x1, ratAdd (ratAdd b1 header_height) (ratMulNat (i + j) row_height), x2,
         ratAdd (ratAdd (ratAdd b1 header_height) (ratMulNat (i + j) row_height)) row_height],
        cleanKey (r.getD 0 "") ++ ": " ++ r.getD 1 "", "metric_table", "blue"⟩ :
        AnnotationRegion) ∈ st2.2 := by
  induction rows with
  | nil =>
    intro i j r st st2 h hj hm
    simp at hj
  | cons r0 rest ih =>
    intro i j r st st2 h hj hm
    cases j with
    | zero =>
      have hr0 : r0 = r := by simpa using hj
      subst hr0
      simp only [extractRows] at h
      rw [if_pos (by simpa [List.getD] using hm)] at h
      have hmono := extractRows_viz_mono vocab (x1 :: b1 :: x2 :: brest) rest (i + 1) _ st2 h
      rw [Nat.add_zero]
      exact hmono _ (List.mem_append.mpr (Or.inr (List.mem_singleton.mpr rfl)))
    | succ j =>
      by_cases hm0 : matchesVocab vocab (r0[0]?.getD "") = true
      · simp only [extractRows] at h
        rw [if_pos (by simpa [List.getD] using hm0)] at h
        have hrec := ih (i + 1) j r _ st2 h (by simpa using hj) hm
        have harith : i + 1 + j = i + (j + 1) := by omega
        rw [harith] at hrec
        exact hrec
      · simp only [extractRows] at h
        rw [if_neg (by simpa [List.getD] using hm0)] at h
        have hrec := ih (i + 1) j r st st2 h (by simpa using hj) hm
        have harith : i + 1 + j = i + (j + 1) := by omega
        rw [harith] at hrec
        exact hrec

theorem extractTables_viz_mono (vocab : List String) (tables : List TableBlock) :
    ∀ (st st2 : ExtractState),
      extractTables vocab tables st = .ok st2 → ∀ e ∈ st.2, e ∈ st2.2 := by
  induction tables with
  | nil =>
    intro st st2 h e he
    simp [extractTables] at h
    rw [← h]
    exact he
  | cons tb rest ih =>
    intro st st2 h e he
    by_cases hlt : tb.headers.length < 2
    · simp [extractTables, hlt] at h
    · cases hres : extractRows vocab tb.bbox 0 tb.rows st with
      | error e2 => simp [extractTables, hlt, hres] at h
      | ok st1 =>
        simp only [extractTables] at h
        rw [if_neg hlt, hres] at h
        exact ih st1 st2 h e (extractRows_viz_mono vocab tb.bbox tb.rows 0 st st1 hres e he)

theorem extractTables_viz_hit (vocab : List String) (tables : List TableBlock) :
    ∀ (st st2 : ExtractState) (tb : TableBlock),
      extractTables vocab tables st = .ok st2 →
      tb ∈ tables →
      ∀ (x1 b1 x2 : ℚ) (brest : List ℚ), tb.bbox = x1 :: b1 :: x2 :: brest →
      ∀ (j : ℕ) (r : List String), tb.rows[j]? = some r →
      matchesVocab vocab (r[0]?.getD "") = true →
      (⟨[x1, ratAdd (ratAdd b1 header_height) (ratMulNat j row_height), x2,
         ratAdd (ratAdd (ratAdd b1 header_height) (ratMulNat j row_height)) row_height],
        cleanKey (r.getD 0 "") ++ ": " ++ r.getD 1 "", "metric_table", "blue"⟩ :
        AnnotationRegion) ∈ st2.2 := by
  induction tables with
  | nil =>
    intro st st2 tb h htb
    simp at htb
  | cons tb0 rest ih =>
    intro st st2 tb h htb x1 b1 x2 brest hbb j r hj hm
    by_cases hlt : tb0.headers.length < 2
    · simp [extractTables, hlt] at h
    · cases hres : extractRows vocab tb0.bbox 0 tb0.rows st with
      | error e2 => simp [extractTables, hlt, hres] at h
      | ok st1 =>
        simp only [extractTables] at h
        rw [if_neg hlt, hres] at h
        rcases List.mem_cons.mp htb with rfl | hmem
        · rw [hbb] at hres
          have hhit := extractRows_viz_hit vocab x1 b1 x2 brest tb.rows 0 j r st st1 hres hj hm
          rw [Nat.zero_add] at hhit
          exact extractTables_viz_mono vocab rest st1 st2 h _ hhit
        · exact ih st1 st2 tb h hmem x1 b1 x2 brest hbb j r hj hm

/-- C8: for every matched row at row index `i` in a table with bounding box
`(x1, b1, x2, y2)`, the synthesized metric-row `AnnotationRegion` is exactly
`[x1, b1 + 30 + i*25, x2, b1 + 30 + i*25 + 25]`: vertical start at the
table's top plus the fixed header height 30 plus `i` times the fixed row
height 25, height 25, and the table's own horizontal span. -/
theorem metric_row_region_formula (doc : ParsedDocument) (vocab : List String)
    (m : Dict) (viz : List AnnotationRegion)
    (h : extract_financial_metrics doc vocab = .ok (m, viz))
    (tb : TableBlock) (htb : tb ∈ doc.tables)
    (x1 b1 x2 y2 : ℚ) (hbb : tb.bbox = [x1, b1, x2, y2])
    (i : ℕ) (r : List String) (hr : tb.rows[i]? = some r)
    (hm : matchesVocab vocab (r.getD 0 "") = true) :
    (⟨[x1, b1 + 30 + (i : ℚ) * 25, x2, b1 + 30 + (i : ℚ) * 25 + 25],
      cleanKey (r.getD 0 "") ++ ": " ++ r.getD 1 "", "metric_table", "blue"⟩ :
      AnnotationRegion) ∈ viz := by
  cases hres : extractTables vocab doc.tables ([], []) with
  | error e => simp [extract_financial_metrics, hres] at h
  | ok st1 =>
    simp only [extract_financial_metrics, hres] at h
    have hviz : viz = st1.2 ++ doc.tables.map tableRegion := by
      cases st1
      simp at h
      exact h.2.symm
    have hhit := extractTables_viz_hit vocab doc.tables ([], []) st1 tb hres htb
      x1 b1 x2 [y2] hbb i r hr (by simpa [List.getD] using hm)
    have hconv : ratAdd (ratAdd b1 header_height) (ratMulNat i row_height) =
        b1 + 30 + (i : ℚ) * 25 := by
      rw [ratAdd_eq, ratAdd_eq, ratMulNat_eq]
      simp [header_height, row_height]
    have hconv2 : ratAdd (ratAdd (ratAdd b1 header_height) (ratMulNat i row_height))
        row_height = b1 + 30 + (i : ℚ) * 25 + 25 := by
      rw [ratAdd_eq, hconv]
      simp [row_height]
    rw [hviz]
    refine List.mem_append.mpr (Or.inl ?_)
    rw [← hconv2, ← hconv]
    exact hhit

/-- C8 witness: in `dupKeyDoc` (table bbox `[0, 0, 100, 100]`), the matched
row at index 1 produces the region `[0, 0+30+1*25, 100, 0+30+1*25+25]`,
which is `[0, 55, 100, 80]`. -/
theorem metric_row_region_formula_witness :
    (⟨[(0 : ℚ), 0 + 30 + ((1 : ℕ) : ℚ) * 25, 100, 0 + 30 + ((1 : ℕ) : ℚ) * 25 + 25],
      cleanKey ((["Revenue X (adj)", "2"] : List String).getD 0 "") ++ ": " ++
        (["Revenue X (adj)", "2"] : List String).getD 1 "",
      "metric_table", "blue"⟩ : AnnotationRegion) ∈ dupKeyViz :=
  metric_row_region_formula dupKeyDoc target_metrics [("Revenue X", "2")] dupKeyViz
    (by decide) dupKeyTable (by decide) 0 0 100 100 (by decide) 1
    ["Revenue X (adj)", "2"] (by decide) (by decide)

theorem map_fst_zip_sublist {α β : Type} (h : List α) (r : List β) :
    ((h.zip r).map Prod.fst).Sublist h := by
  induction h generalizing r with
  | nil => simp
  | cons a h ih =>
    cases r with
    | nil => simp
    | cons b r => simpa using List.Sublist.cons₂ a (ih r)

theorem foldl_dictAssign_of_nodup (l : List (String × String)) :
    ∀ acc : Dict,
      (∀ p ∈ l, ∀ q ∈ acc, p.1 ≠ q.1) →
      (l.map Prod.fst).Nodup →
      l.foldl (fun d p => dictAssign d p.1 p.2) acc = acc ++ l := by
  induction l with
  | nil =>
    intro acc _ _
    simp
  | cons p l ih =>
    intro acc hdisj hnd
    have hpacc : acc.any (fun q => q.1 == p.1) = false := by
      by_contra hc
      rw [Bool.not_eq_false] at hc
      rcases List.any_eq_true.mp hc with ⟨q, hq, hqp⟩
      exact hdisj p (List.mem_cons_self p l) q hq (eq_of_beq hqp).symm
    have hstep : dictAssign acc p.1 p.2 = acc ++ [p] := by
      unfold dictAssign
      rw [hpacc]
      simp
    have hnd2 : (l.map Prod.fst).Nodup := by
      rw [List.map_cons, List.nodup_cons] at hnd
      exact hnd.2
    have hp1 : p.1 ∉ l.map Prod.fst := by
      rw [List.map_cons, List.nodup_cons] at hnd
      exact hnd.1
    have hdisj2 : ∀ x ∈ l, ∀ q ∈ acc ++ [p], x.1 ≠ q.1 := by
      intro x hx q hq
      rcases List.mem_append.mp hq with hq1 | hq2
      · exact hdisj x (List.mem_cons_of_mem p hx) q hq1
      · have hqp : q = p := List.mem_singleton.mp hq2
        subst hqp
        intro heq
        exact hp1 (List.mem_map.mpr ⟨x, hx, heq⟩)
    simp only [List.foldl_cons]
    rw [hstep, ih (acc ++ [p]) hdisj2 hnd2]
    simp

theorem pyDict_eq_self (l : List (String × String)) (hnd : (l.map Prod.fst).Nodup) :
    pyDict l = l := by
  unfold pyDict
  rw [foldl_dictAssign_of_nodup l [] (by simp) hnd]
  simp

theorem to_dict_records_eq (tb : TableBlock) (h : tb.headers.Nodup) :
    to_dict_records tb = zipRecords tb := by
  unfold to_dict_records zipRecords
  refine List.map_congr_left ?_
  intro r hr
  exact pyDict_eq_self _ (h.sublist (map_fst_zip_sublist tb.headers r))

theorem jsonTables_eq_spec (tables : List TableBlock)
    (h : ∀ tb ∈ tables, tb.headers.Nodup) :
    ∀ i : ℕ, jsonTables i tables = jsonTablesSpec i tables := by
  induction tables with
  | nil =>
    intro i
    rfl
  | cons tb rest ih =>
    intro i
    have htb := h tb (List.mem_cons_self tb rest)
    have hrest := fun x hx => h x (List.mem_cons_of_mem tb hx)
    by_cases he : tableEmpty tb = true
    · simp [jsonTables, jsonTablesSpec, he, ih hrest]
    · simp [jsonTables, jsonTablesSpec, he, ih hrest, to_dict_records_eq tb htb]

/-- C6: round trip — the JSON export object carries a `key_metrics` object
exactly equal to the input mapping and, for each emitted table, an ordered
record sequence exactly equal to that table's rows zipped with its headers
(stated as: the built JSON value coincides with the spec's description of it;
serialising with `json.dumps` and parsing back is the identity on this
structure). -/
theorem format_json_round_trip (metrics : Dict) (tables : List TableBlock)
    (h : ∀ tb ∈ tables, tb.headers.Nodup) :
    format_json metrics tables = format_json_spec metrics tables := by
  unfold format_json format_json_spec
  rw [jsonTables_eq_spec tables h 0]

/-- C6 witness: the round trip instantiated at a one-entry mapping and a
one-row table with two distinct headers. -/
theorem format_json_round_trip_witness :
    format_json [("A", "1")] [jsonWitnessTable] =
      format_json_spec [("A", "1")] [jsonWitnessTable] :=
  format_json_round_trip [("A", "1")] [jsonWitnessTable] (by decide)

theorem foldl_union_ext (colss : List (List String)) :
    ∀ acc : List String,
      ∃ ext, colss.foldl
        (fun acc2 cols => acc2 ++ cols.filter (fun c => !acc2.contains c)) acc =
          acc ++ ext := by
  induction colss with
  | nil =>
    intro acc
    exact ⟨[], by simp⟩
  | cons cols rest ih =>
    intro acc
    obtain ⟨ext, hext⟩ := ih (acc ++ cols.filter (fun c => !acc.contains c))
    refine ⟨cols.filter (fun c => !acc.contains c) ++ ext, ?_⟩
    simp only [List.foldl_cons]
    rw [hext, List.append_assoc]

theorem unionCols_head (c0 : List String) (colss : List (List String)) :
    ∃ ext, unionCols (c0 :: colss) = c0 ++ ext := by
  unfold unionCols
  simp only [List.foldl_cons]
  have h0 : ([] : List String) ++ c0.filter (fun c => !(([] : List String).contains c)) = c0 := by
    simp
  rw [h0]
  exact foldl_union_ext colss c0

theorem idxOf?_eq_none (c : String) (l : List String) (h : c ∉ l) : idxOf? c l = none := by
  induction l with
  | nil => rfl
  | cons x xs ih =>
    have hx : (x == c) = false := by
      have hne : ¬ x = c := by
        intro heq
        exact h (by rw [heq]; exact List.mem_cons_self c xs)
      simpa using hne
    simp [idxOf?, hx, ih (fun hm => h (List.mem_cons_of_mem x hm))]

theorem alignRow_getElem? (cols dfCols : List String) (row : List String) (n : ℕ) :
    (alignRow cols dfCols row)[n]? = (cols[n]?).map (fun c =>
      match idxOf? c dfCols with
      | some j => row[j]?
      | none => none) := by
  unfold alignRow
  rw [List.getElem?_map]

theorem tableFrames_mem (tables : List TableBlock) :
    ∀ (k : ℕ) (dfs : List (List String × List (List String))),
      tableFrames k tables = .ok dfs →
      ∀ (i : ℕ) (tb : TableBlock), tables[i]? = some tb → tableEmpty tb = false →
      ("Data_Type" :: tb.headers,
        tb.rows.map (fun r => ("Table_" ++ toString (k + i + 1)) :: r)) ∈ dfs := by
  induction tables with
  | nil =>
    intro k dfs h i tb hi
    simp at hi
  | cons tb0 rest ih =>
    intro k dfs h i tb hi hne
    by_cases he : tableEmpty tb0 = true
    · simp only [tableFrames, he, if_true] at h
      cases i with
      | zero =>
        have heq : tb0 = tb := by simpa using hi
        subst heq
        rw [he] at hne
        cases hne
      | succ i =>
        have hi2 : rest[i]? = some tb := by simpa using hi
        have hrec := ih (k + 1) dfs h i tb hi2 hne
        have harith : k + 1 + i + 1 = k + (i + 1) + 1 := by omega
        rw [harith] at hrec
        exact hrec
    · by_cases hdt : tb0.headers.contains "Data_Type" = true
      · simp only [tableFrames] at h
        rw [if_neg he, if_pos hdt] at h
        cases h
      · simp only [tableFrames] at h
        rw [if_neg he, if_neg hdt] at h
        cases hrec : tableFrames (k + 1) rest with
        | error e =>
          rw [hrec] at h
          cases h
        | ok dfs2 =>
          rw [hrec] at h
          have hdfs : ("Data_Type" :: tb0.headers,
              tb0.rows.map (fun r => ("Table_" ++ toString (k + 1)) :: r)) :: dfs2 = dfs := by
            exact Except.ok.inj h
          cases i with
          | zero =>
            have heq : tb0 = tb := by simpa using hi
            subst heq
            rw [← hdfs]
            have harith : k + 0 + 1 = k + 1 := by omega
            rw [harith]
            exact List.mem_cons_self _ _
          | succ i =>
            have hi2 : rest[i]? = some tb := by simpa using hi
            have hmem := ih (k + 1) dfs2 hrec i tb hi2 hne
            have harith : k + 1 + i + 1 = k + (i + 1) + 1 := by omega
            rw [harith] at hmem
            rw [← hdfs]
            exact List.mem_cons_of_mem _ hmem

theorem csvRender_ne_empty (cols : List String) (rows : List (List (Option String))) :
    csvRender cols rows ≠ "" := by
  unfold csvRender
  intro hcontra
  have hlen := congrArg String.length hcontra
  rw [String.length_append, String.length_append] at hlen
  have h1 : ("\n" : String).length = 1 := rfl
  have h0 : ("" : String).length = 0 := rfl
  rw [h1, h0] at hlen
  omega

/-- C9 (amended): with an empty metrics mapping and at least one non-empty
table, the CSV still has the `Metric` and `Value` columns in its header
(the metrics section is present with zero data rows), contains every table
row under that table's own header columns, and the table rows' cells in the
`Metric`/`Value` columns are empty whenever `Metric`/`Value` are not among
that table's own headers (the canonical table's own `Metric` column shows
they are not empty otherwise); the rendered CSV is non-empty. -/
theorem csv_sections_with_empty_metrics (tables : List TableBlock)
    (cols : List String) (rows : List (List (Option String)))
    (hok : format_csv_frames [] tables = .ok (cols, rows))
    (i : ℕ) (tb : TableBlock) (hget : tables[i]? = some tb)
    (hne : tableEmpty tb = false)
    (r : List String) (hr : r ∈ tb.rows) :
    cols[1]? = some "Metric" ∧ cols[2]? = some "Value" ∧
    alignRow cols ("Data_Type" :: tb.headers) (("Table_" ++ toString (i + 1)) :: r) ∈ rows ∧
    ("Metric" ∉ tb.headers →
      (alignRow cols ("Data_Type" :: tb.headers)
        (("Table_" ++ toString (i + 1)) :: r))[1]? = some none) ∧
    ("Value" ∉ tb.headers →
      (alignRow cols ("Data_Type" :: tb.headers)
        (("Table_" ++ toString (i + 1)) :: r))[2]? = some none) ∧
    format_csv [] tables = .ok (csvRender cols rows) ∧
    csvRender cols rows ≠ "" := by
  have hok0 := hok
  cases htf : tableFrames 0 tables with
  | error e =>
    unfold format_csv_frames at hok
    rw [htf] at hok
    cases hok
  | ok dfs =>
    unfold format_csv_frames at hok
    rw [htf] at hok
    simp only [concatFrames, Except.ok.injEq, Prod.mk.injEq] at hok
    obtain ⟨hcols, hrows⟩ := hok
    rw [hcols] at hrows
    have hmf : (metricsFrame [] :: dfs).map Prod.fst =
        ["Data_Type", "Metric", "Value"] :: dfs.map Prod.fst := by
      simp [metricsFrame]
    obtain ⟨ext, hext⟩ := unionCols_head ["Data_Type", "Metric", "Value"] (dfs.map Prod.fst)
    have hcols2 : cols = ["Data_Type", "Metric", "Value"] ++ ext := by
      rw [← hcols, hmf, hext]
    have h1 : cols[1]? = some "Metric" := by
      rw [hcols2]
      simp [List.getElem?_append]
    have h2 : cols[2]? = some "Value" := by
      rw [hcols2]
      simp [List.getElem?_append]
    have hfmem := tableFrames_mem tables 0 dfs htf i tb hget hne
    rw [Nat.zero_add] at hfmem
    have hrmem : alignRow cols ("Data_Type" :: tb.headers)
        (("Table_" ++ toString (i + 1)) :: r) ∈ rows := by
      rw [← hrows]
      refine List.mem_flatMap.mpr
        ⟨("Data_Type" :: tb.headers,
          tb.rows.map (fun rr => ("Table_" ++ toString (i + 1)) :: rr)), ?_, ?_⟩
      · exact List.mem_cons_of_mem _ hfmem
      · exact List.mem_map.mpr ⟨("Table_" ++ toString (i + 1)) :: r,
          List.mem_map.mpr ⟨r, hr, rfl⟩, rfl⟩
    have hmetric : "Metric" ∉ tb.headers →
        (alignRow cols ("Data_Type" :: tb.headers)
          (("Table_" ++ toString (i + 1)) :: r))[1]? = some none := by
      intro hnm
      rw [alignRow_getElem?, h1]
      simp [idxOf?, idxOf?_eq_none "Metric" tb.headers hnm]
    have hvalue : "Value" ∉ tb.headers →
        (alignRow cols ("Data_Type" :: tb.headers)
          (("Table_" ++ toString (i + 1)) :: r))[2]? = some none := by
      intro hnv
      rw [alignRow_getElem?, h2]
      simp [idxOf?, idxOf?_eq_none "Value" tb.headers hnv]
    have hfc : format_csv [] tables = .ok (csvRender cols rows) := by
      unfold format_csv
      rw [hok0]
    exact ⟨h1, h2, hrmem, hmetric, hvalue, hfc, csvRender_ne_empty cols rows⟩

/-- C9 witness: one non-empty table with headers `Item`/`Amount` (disjoint
from `Metric`/`Value`): the combined header starts
`Data_Type, Metric, Value`, the table row appears aligned to it, and its
`Metric`/`Value` cells are empty. -/
theorem csv_sections_with_empty_metrics_witness :
    ((["Data_Type", "Metric", "Value", "Item", "Amount"] : List String)[1]? = some "Metric") ∧
    ((["Data_Type", "Metric", "Value", "Item", "Amount"] : List String)[2]? = some "Value") ∧
    alignRow ["Data_Type", "Metric", "Value", "Item", "Amount"]
      ("Data_Type" :: csvWitnessTable.headers)
      (("Table_" ++ toString (0 + 1)) :: ["Cash", "100"]) ∈
      [[some "Table_1", none, none, some "Cash", some "100"]] ∧
    ("Metric" ∉ csvWitnessTable.headers →
      (alignRow ["Data_Type", "Metric", "Value", "Item", "Amount"]
        ("Data_Type" :: csvWitnessTable.headers)
        (("Table_" ++ toString (0 + 1)) :: ["Cash", "100"]))[1]? = some none) ∧
    ("Value" ∉ csvWitnessTable.headers →
      (alignRow ["Data_Type", "Metric", "Value", "Item", "Amount"]
        ("Data_Type" :: csvWitnessTable.headers)
        (("Table_" ++ toString (0 + 1)) :: ["Cash", "100"]))[2]? = some none) ∧
    format_csv [] [csvWitnessTable] =
      .ok (csvRender ["Data_Type", "Metric", "Value", "Item", "Amount"]
        [[some "Table_1", none, none, some "Cash", some "100"]]) ∧
    csvRender ["Data_Type", "Metric", "Value", "Item", "Amount"]
      [[some "Table_1", none, none, some "Cash", some "100"]] ≠ "" :=
  csv_sections_with_empty_metrics [csvWitnessTable]
    ["Data_Type", "Metric", "Value", "Item", "Amount"]
    [[some "Table_1", none, none, some "Cash", some "100"]]
    (by decide) 0 csvWitnessTable (by decide) (by decide) ["Cash", "100"] (by decide)
